import Mathlib

/-!
# Verification of the `lazyerrors` Go package

A shallow embedding of the `lazyerrors` error-wrapping library.
The package wraps an error together with a single program counter (`pc`);
rendering resolves the pc to a stack frame (file, line, function name),
shortens the file path and function name according to a process-wide
formatting policy, and substitutes them into a printf-style template.

Machine pointers (`uintptr`) are modelled as `Nat` (0 is the zero value),
`nil` Go errors as `none : Option Err`, and the runtime's pc-to-frame
resolution as an abstract environment `resolve : Nat → Frame`.
-/

namespace Lazyerrors

/-- A resolved stack frame, as produced by `runtime.CallersFrames(...).Next()`:
file path, line number, and fully qualified function name. -/
structure Frame where
  file : String
  line : Int
  function : String
deriving DecidableEq, Repr

/-- The process-wide formatting configuration: the package-level variables
`FileSegments`, `FunctionSegments` and `Format`. -/
structure Policy where
  FileSegments : Int
  FunctionSegments : Int
  Format : String
deriving DecidableEq, Repr

/-- The default values of `FileSegments = 1`, `FunctionSegments = 1` and
`Format = "%s:%d (%s): %s"`. -/
def defaultPolicy : Policy := ⟨1, 1, "%s:%d (%s): %s"⟩

/-- Go error values reachable in this package:
a plain error with a message (`errors.New`, `fmt.Errorf` results),
a `lazyerror{err, pc}` wrap, and the `joinError` aggregate produced by
`errors.Join` (whose `Error()` joins the messages with newlines and which
has `Unwrap() []error`, not `Unwrap() error`). -/
inductive Err where
  | base (msg : String)
  | lazy (err : Err) (pc : Nat)
  | joined (errs : List Err)

/-- Models `strings.LastIndexByte(path, c)` followed by the slice `path[i+1:]`:
`some s` where `s` is the part of the list after the last occurrence of `c`,
or `none` when `c` does not occur. -/
def lastIndexSuffix (c : Char) : List Char → Option (List Char)
  | [] => none
  | x :: xs =>
    match lastIndexSuffix c xs with
    | some s => some s
    | none => if x = c then some xs else none

/-- Models `strings.SplitAfter(path, c)`: splits after each occurrence of `c`,
keeping the separator with each leading piece. Always returns at least
one piece; concatenating the pieces gives back the input. -/
def splitAfter (c : Char) : List Char → List (List Char)
  | [] => [[]]
  | x :: xs =>
    if x = c then [x] :: splitAfter c xs
    else
      match splitAfter c xs with
      | [] => [[x]]
      | y :: ys => (x :: y) :: ys

/-- The `shorten` function of the package (on character lists):
```go
func shorten(path string, segments int) string {
        switch {
        case segments == 0:
                return ""
        case segments == 1:
                if i := strings.LastIndexByte(path, '/'); i != -1 {
                        return path[i+1:]
                }
        case segments > 1:
                p := strings.SplitAfter(path, "/")
                if i := len(p) - segments; i > 0 {
                        return strings.Join(p[i:], "")
                }
        }
        return path
}
``` -/
def shorten (path : List Char) (segments : Int) : List Char :=
  if segments = 0 then []
  else if segments = 1 then
    match lastIndexSuffix '/' path with
    | some s => s
    | none => path
  else if 1 < segments then
    let p := splitAfter '/' path
    if 0 < (p.length : Int) - segments then
      (p.drop ((p.length : Int) - segments).toNat).flatten
    else path
  else path

/-- The function `shorten` lifted to `String`. -/
def shortenS (s : String) (segments : Int) : String :=
  ⟨shorten s.data segments⟩

/-- An argument passed to `fmt.Sprintf`: a string or an integer. -/
inductive FmtArg where
  | str (s : String)
  | num (n : Int)
deriving DecidableEq, Repr

/-- A model of `fmt.Sprintf` restricted to the verb/argument shapes this
package uses: `%s` consumes a string argument, `%d` an integer argument,
every other character is copied verbatim. A verb whose argument is missing
or of the wrong kind produces a Go-style error marker. -/
def sprintf : List Char → List FmtArg → String
  | [], _ => ""
  | '%' :: 's' :: r, (FmtArg.str s) :: as => s ++ sprintf r as
  | '%' :: 'd' :: r, (FmtArg.num n) :: as => toString n ++ sprintf r as
  | '%' :: c :: r, as => "%!" ++ c.toString ++ "(BADVERB)" ++ sprintf r as
  | c :: r, as => c.toString ++ sprintf r as

/-- The `loc` method of `lazyerror`: the zero pc resolves to empty file,
line 0, and empty function; otherwise the runtime resolves the frame. -/
def loc (resolve : Nat → Frame) (pc : Nat) : Frame :=
  if pc = 0 then ⟨"", 0, ""⟩ else resolve pc

/-- The `Error()` method: for a `lazyerror`, if the located file and function
are both empty it returns the wrapped error's message unchanged, otherwise it
formats the shortened file, line, shortened function, and the wrapped error's
message into the policy's template. For a plain error it is the message; for
a `joinError` it joins the component messages with newlines. -/
def render (pol : Policy) (resolve : Nat → Frame) : Err → String
  | .base msg => msg
  | .joined errs =>
    String.intercalate "\n" (errs.attach.map fun x => render pol resolve x.1)
  | .lazy e pc =>
    let f := loc resolve pc
    if f.file = "" ∧ f.function = "" then render pol resolve e
    else
      sprintf pol.Format.data
        [FmtArg.str (shortenS f.file pol.FileSegments),
         FmtArg.num f.line,
         FmtArg.str (shortenS f.function pol.FunctionSegments),
         FmtArg.str (render pol resolve e)]
decreasing_by
  · have := List.sizeOf_lt_of_mem x.2
    simp only [Err.joined.sizeOf_spec]
    omega
  · simp only [Err.lazy.sizeOf_spec]
    omega

/-- One-step unwrap, as in `errors.Unwrap` and the `Unwrap() error` method.
Only `lazyerror` has an `Unwrap() error` method; plain errors have none and
`joinError` has `Unwrap() []error`, so both yield `nil` here. -/
def unwrapOnce : Err → Option Err
  | .lazy e _ => some e
  | _ => none

/-- Iterates `errors.Unwrap` `n` times, on a possibly-nil error. -/
def unwrapIter : Nat → Option Err → Option Err
  | 0, e => e
  | n + 1, e => unwrapIter n (e.bind unwrapOnce)

/-- Builds `N` sequential wraps around a base error, each recording a pc:
`wrapChain [p1, p2, ...] e = lazy (lazy (... e ...) p2) p1`. -/
def wrapChain (pcs : List Nat) (base : Err) : Err :=
  pcs.foldr (fun pc e => Err.lazy e pc) base

/-- The public constructor `Error`: panics (modelled as `Except.error`)
when the cause is nil, otherwise wraps it with the captured pc:
```go
func Error(err error) error {
        if err == nil {
                panic("err is nil")
        }
        return lazyerror{err: err, pc: pc()}
}
``` -/
def ErrorCtor (err : Option Err) (pc : Nat) : Except String Err :=
  match err with
  | none => Except.error "err is nil"
  | some e => Except.ok (Err.lazy e pc)

/-- Models `errors.Join`: discards nil entries; returns nil if none remain,
otherwise the aggregate of the remaining errors. -/
def errorsJoin (errs : List (Option Err)) : Option Err :=
  let ne := errs.filterMap id
  if ne.isEmpty then none else some (Err.joined ne)

/-- The public constructor `Join`:
```go
func Join(errs ...error) error {
        err := errors.Join(errs...)
        if err == nil {
                return nil
        }
        return lazyerror{err: err, pc: pc()}
}
``` -/
def Join (errs : List (Option Err)) (pc : Nat) : Option Err :=
  match errorsJoin errs with
  | none => none
  | some e => some (Err.lazy e pc)

/-- A sample pc-to-frame resolution environment used for concrete checks:
pc 7 resolves to a populated frame, everything else to the zero frame. -/
def sampleResolve : Nat → Frame :=
  fun pc => if pc = 7 then ⟨"a/b/c.go", 42, "pkg/mod.Fn"⟩ else ⟨"", 0, ""⟩

/-- The location prefix produced by one wrap under the default policy:
`<shortened-file>:<line> (<shortened-function>): `. -/
def defaultLocPart (fr : Frame) : String :=
  shortenS fr.file 1 ++ ":" ++ toString fr.line ++ " (" ++
    shortenS fr.function 1 ++ "): "

/-- Models `runtime.Callers(skip, pc)` with a one-element, zero-initialized buffer:
the call stack is a list of program counters, innermost first, with index 0
identifying the frame of `runtime.Callers` itself; if fewer than `skip + 1`
frames exist the buffer keeps its zero value. -/
def callers1 (skip : Nat) (stack : List Nat) : Nat :=
  (stack.drop skip).headD 0

/-- The package's `pc` function:
```go
func pc() uintptr {
        pc := make([]uintptr, 1)
        runtime.Callers(3, pc)
        return pc[0]
}
```
When `pc` executes, the stack seen by `runtime.Callers` is the frame of
`runtime.Callers` itself (`callersFrame`), then `pc`'s own frame (`pcFrame`),
then the frames of `pc`'s callers (`rest`). -/
def pcCapture (callersFrame pcFrame : Nat) (rest : List Nat) : Nat :=
  callers1 3 (callersFrame :: pcFrame :: rest)

/-- The constructor `New` with its stack made explicit: it executes with its
own frame `selfFrame` pushed on its caller's stack and calls `pc` directly
from its body. -/
def NewStk (s : String) (callersFrame pcFrame selfFrame : Nat)
    (callerStack : List Nat) : Err :=
  Err.lazy (Err.base s) (pcCapture callersFrame pcFrame (selfFrame :: callerStack))

/-- The constructor `Error` (on a non-nil cause) with its stack made
explicit; like `New`, it calls `pc` directly from its own body. -/
def ErrorStk (e : Err) (callersFrame pcFrame selfFrame : Nat)
    (callerStack : List Nat) : Err :=
  Err.lazy e (pcCapture callersFrame pcFrame (selfFrame :: callerStack))

/-- The constructor `Errorf` with its stack made explicit; `fmt.Errorf`'s
formatting is abstracted to the resulting message. It calls `pc` directly
from its own body. -/
def ErrorfStk (formatted : String) (callersFrame pcFrame selfFrame : Nat)
    (callerStack : List Nat) : Err :=
  Err.lazy (Err.base formatted)
    (pcCapture callersFrame pcFrame (selfFrame :: callerStack))

/-- The constructor `Join` with its stack made explicit; it calls `pc`
directly from its own body. -/
def JoinStk (errs : List (Option Err)) (callersFrame pcFrame selfFrame : Nat)
    (callerStack : List Nat) : Option Err :=
  Join errs (pcCapture callersFrame pcFrame (selfFrame :: callerStack))

/-! ## Lemmas about `lastIndexSuffix` and `splitAfter` -/

theorem lastIndexSuffix_eq_none {c : Char} {l : List Char}
    (h : lastIndexSuffix c l = none) : c ∉ l := by
  induction l with
  | nil => simp
  | cons x xs ih =>
    rw [lastIndexSuffix] at h
    rcases hx : lastIndexSuffix c xs with _ | s
    · rw [hx] at h
      simp only at h
      split at h
      · exact absurd h (by simp)
      · rename_i hxc
        intro hc
        rcases List.mem_cons.mp hc with rfl | hmem
        · exact hxc rfl
        · exact ih hx hmem
    · rw [hx] at h
      simp at h

theorem lastIndexSuffix_eq_some {c : Char} {l s : List Char}
    (h : lastIndexSuffix c l = some s) :
    (∃ pre, l = pre ++ c :: s) ∧ c ∉ s := by
  induction l generalizing s with
  | nil => simp [lastIndexSuffix] at h
  | cons x xs ih =>
    rw [lastIndexSuffix] at h
    rcases hx : lastIndexSuffix c xs with _ | t
    · rw [hx] at h
      simp only at h
      split at h
      · rename_i hxc
        obtain rfl : xs = s := by simpa using h
        exact ⟨⟨[], by simp [hxc]⟩, lastIndexSuffix_eq_none hx⟩
      · simp at h
    · rw [hx] at h
      obtain rfl : t = s := by simpa using h
      obtain ⟨⟨pre, hpre⟩, hns⟩ := ih hx
      exact ⟨⟨x :: pre, by simp [hpre]⟩, hns⟩

theorem splitAfter_ne_nil (c : Char) (l : List Char) : splitAfter c l ≠ [] := by
  cases l with
  | nil => simp [splitAfter]
  | cons x xs =>
    rw [splitAfter]
    split
    · simp
    · split <;> simp

theorem flatten_splitAfter (c : Char) (l : List Char) :
    (splitAfter c l).flatten = l := by
  induction l with
  | nil => simp [splitAfter]
  | cons x xs ih =>
    rw [splitAfter]
    split
    · rename_i hx
      simp [hx, ih]
    · rcases hs : splitAfter c xs with _ | ⟨y, ys⟩
      · exact absurd hs (splitAfter_ne_nil c xs)
      · rw [hs] at ih
        simp only [List.flatten_cons] at ih ⊢
        simp [← ih]

theorem splitAfter_length (c : Char) (l : List Char) :
    (splitAfter c l).length = l.count c + 1 := by
  induction l with
  | nil => simp [splitAfter]
  | cons x xs ih =>
    rw [splitAfter]
    split
    · rename_i hx
      simp [hx, ih, List.count_cons]
    · rename_i hx
      rcases hs : splitAfter c xs with _ | ⟨y, ys⟩
      · exact absurd hs (splitAfter_ne_nil c xs)
      · rw [hs] at ih
        simp only [List.length_cons] at ih ⊢
        rw [List.count_cons]
        simp only [beq_iff_eq]
        rw [if_neg (by simpa [eq_comm] using hx)]
        omega

theorem splitAfter_of_not_mem {c : Char} {l : List Char} (h : c ∉ l) :
    splitAfter c l = [l] := by
  induction l with
  | nil => simp [splitAfter]
  | cons x xs ih =>
    rw [splitAfter]
    rw [if_neg (by rintro rfl; exact h (by simp))]
    rw [ih (fun hc => h (by simp [hc]))]

theorem lastIndexSuffix_of_not_mem {c : Char} {l : List Char} (h : c ∉ l) :
    lastIndexSuffix c l = none := by
  induction l with
  | nil => rfl
  | cons x xs ih =>
    rw [lastIndexSuffix, ih (fun hc => h (by simp [hc])),
      if_neg (by rintro rfl; exact h (by simp))]

/-! ## Lemmas about `shorten` -/

theorem shorten_neg {p : List Char} {s : Int} (h : s < 0) : shorten p s = p := by
  rw [shorten, if_neg (by omega), if_neg (by omega), if_neg (by omega)]

theorem shorten_zero (p : List Char) : shorten p 0 = [] := by
  rw [shorten, if_pos rfl]

theorem shorten_one_of_mem {p : List Char} (h : '/' ∈ p) :
    ∃ pre, p = pre ++ '/' :: shorten p 1 ∧ '/' ∉ shorten p 1 := by
  rcases hx : lastIndexSuffix '/' p with _ | s
  · exact absurd h (lastIndexSuffix_eq_none hx)
  · have hsh : shorten p 1 = s := by simp [shorten, hx]
    obtain ⟨⟨pre, hpre⟩, hns⟩ := lastIndexSuffix_eq_some hx
    rw [hsh]
    exact ⟨pre, hpre, hns⟩

theorem shorten_of_not_mem {p : List Char} {s : Int} (h : '/' ∉ p) (hs : 1 ≤ s) :
    shorten p s = p := by
  rcases eq_or_lt_of_le hs with heq | hlt
  · simp [shorten, ← heq, lastIndexSuffix_of_not_mem h]
  · simp only [shorten, if_neg (by omega : ¬s = 0), if_neg (by omega : ¬s = 1),
      if_pos hlt, splitAfter_of_not_mem h, List.length_singleton]
    rw [if_neg (by omega)]

theorem shorten_gt_one {p : List Char} {s : Int} (h : 1 < s) :
    shorten p s =
      ((splitAfter '/' p).drop
        (((splitAfter '/' p).length : Int) - s).toNat).flatten := by
  simp only [shorten, if_neg (by omega : ¬s = 0), if_neg (by omega : ¬s = 1),
    if_pos h]
  split
  · rfl
  · rename_i hle
    rw [show (((splitAfter '/' p).length : Int) - s).toNat = 0 by omega]
    simp [flatten_splitAfter]

theorem shorten_saturate {p : List Char} {s : Int} (h1 : 1 ≤ s)
    (h2 : ((splitAfter '/' p).length : Int) ≤ s) : shorten p s = p := by
  rcases eq_or_lt_of_le h1 with heq | hlt
  · have hlen := splitAfter_length '/' p
    have hc : p.count '/' = 0 := by omega
    exact shorten_of_not_mem (List.count_eq_zero.mp hc) h1
  · simp only [shorten, if_neg (by omega : ¬s = 0), if_neg (by omega : ¬s = 1),
      if_pos hlt]
    rw [if_neg (by omega)]

theorem flatten_drop_isSuffix (L : List (List Char)) (n : Nat) :
    (L.drop n).flatten <:+ L.flatten :=
  ⟨(L.take n).flatten, by rw [← List.flatten_append, List.take_append_drop]⟩

theorem shorten_isSuffix (p : List Char) (s : Int) : shorten p s <:+ p := by
  rcases lt_trichotomy s 0 with hneg | rfl | hpos
  · rw [shorten_neg hneg]
  · rw [shorten_zero]
    exact List.nil_suffix
  · rcases eq_or_lt_of_le (by omega : (1 : Int) ≤ s) with heq | hlt
    · by_cases hm : '/' ∈ p
      · obtain ⟨pre, hpre, -⟩ := shorten_one_of_mem hm
        rw [← heq]
        exact ⟨pre ++ ['/'], by rw [List.append_assoc]; exact hpre.symm⟩
      · rw [shorten_of_not_mem hm (by omega)]
    · rw [shorten_gt_one hlt]
      have := flatten_drop_isSuffix (splitAfter '/' p)
        (((splitAfter '/' p).length : Int) - s).toNat
      rwa [flatten_splitAfter] at this

/-! ## Lemmas about rendering -/

theorem sprintf_default (a f m : String) (n : Int) :
    sprintf "%s:%d (%s): %s".data
      [FmtArg.str a, FmtArg.num n, FmtArg.str f, FmtArg.str m] =
      a ++ ":" ++ toString n ++ " (" ++ f ++ "): " ++ m := by
  have h1 : ∀ x : String, ' '.toString ++ ('('.toString ++ x) = " (" ++ x := by
    intro x
    rw [← String.append_assoc]
    rfl
  have h2 : ∀ x : String,
      ')'.toString ++ (':'.toString ++ (' '.toString ++ x)) = "): " ++ x := by
    intro x
    rw [← String.append_assoc, ← String.append_assoc]
    rfl
  show a ++ (':'.toString ++ (toString n ++ (' '.toString ++ ('('.toString ++
    (f ++ (')'.toString ++ (':'.toString ++ (' '.toString ++ (m ++ ""))))))))) = _
  rw [String.append_empty, h1, h2]
  simp only [String.append_assoc]
  rfl

theorem render_base (pol : Policy) (resolve : Nat → Frame) (msg : String) :
    render pol resolve (Err.base msg) = msg := by
  simp [render]

theorem render_lazy_of_ne (pol : Policy) (resolve : Nat → Frame) (e : Err)
    (pc : Nat) (hpc : pc ≠ 0)
    (hfr : ¬((resolve pc).file = "" ∧ (resolve pc).function = "")) :
    render pol resolve (Err.lazy e pc) =
      sprintf pol.Format.data
        [FmtArg.str (shortenS (resolve pc).file pol.FileSegments),
         FmtArg.num (resolve pc).line,
         FmtArg.str (shortenS (resolve pc).function pol.FunctionSegments),
         FmtArg.str (render pol resolve e)] := by
  simp only [render, loc, if_neg hpc]
  rw [if_neg hfr]

theorem render_joined_singleton (pol : Policy) (resolve : Nat → Frame)
    (e : Err) :
    render pol resolve (Err.joined [e]) = render pol resolve e := by
  simp [render, String.intercalate, String.intercalate.go]

theorem render_lazy_zero (pol : Policy) (resolve : Nat → Frame) (e : Err) :
    render pol resolve (Err.lazy e 0) = render pol resolve e := by
  simp [render, loc]

/-! ## The claims -/

/-- Claim C1: one-step unwrap of a single wrap returns exactly the wrapped
cause, and for a chain of `N` sequential wraps around a base error, `N`
applications of one-step unwrap yield the base error while `N + 1`
applications yield `nil`. -/
theorem unwrap_wrap_and_chain_spec :
    (∀ (cause : Err) (pc : Nat), unwrapOnce (Err.lazy cause pc) = some cause) ∧
    (∀ (pcs : List Nat) (msg : String),
      unwrapIter pcs.length (some (wrapChain pcs (Err.base msg))) =
        some (Err.base msg) ∧
      unwrapIter (pcs.length + 1) (some (wrapChain pcs (Err.base msg))) =
        none) := by
  refine ⟨fun _ _ => rfl, fun pcs msg => ?_⟩
  induction pcs with
  | nil => exact ⟨rfl, rfl⟩
  | cons pc pcs ih =>
    have hstep : ∀ (n : Nat) (e : Err) (q : Nat),
        unwrapIter (n + 1) (some (Err.lazy e q)) = unwrapIter n (some e) :=
      fun _ _ _ => rfl
    constructor
    · show unwrapIter (pcs.length + 1)
        (some (Err.lazy (wrapChain pcs (Err.base msg)) pc)) = _
      rw [hstep]
      exact ih.1
    · show unwrapIter (pcs.length + 1 + 1)
        (some (Err.lazy (wrapChain pcs (Err.base msg)) pc)) = _
      rw [hstep]
      exact ih.2

/-- Claim C2: under the default policy, rendering a wrapped error with a
captured, non-empty frame substitutes the shortened file, the line, the
shortened function, and the cause's full rendering into the template, and a
chain of `N` wraps renders as `N` such prefixes, outermost first, terminated
by the base error's plain message. -/
theorem render_default_template_spec (resolve : Nat → Frame) :
    (∀ (e : Err) (pc : Nat), pc ≠ 0 →
      ¬((resolve pc).file = "" ∧ (resolve pc).function = "") →
      render defaultPolicy resolve (Err.lazy e pc) =
        defaultLocPart (resolve pc) ++ render defaultPolicy resolve e) ∧
    (∀ (pcs : List Nat) (msg : String),
      (∀ pc ∈ pcs, pc ≠ 0 ∧
        ¬((resolve pc).file = "" ∧ (resolve pc).function = "")) →
      render defaultPolicy resolve (wrapChain pcs (Err.base msg)) =
        (pcs.map fun pc => defaultLocPart (resolve pc)).foldr
          (fun a b => a ++ b) msg) := by
  have hone : ∀ (e : Err) (pc : Nat), pc ≠ 0 →
      ¬((resolve pc).file = "" ∧ (resolve pc).function = "") →
      render defaultPolicy resolve (Err.lazy e pc) =
        defaultLocPart (resolve pc) ++ render defaultPolicy resolve e := by
    intro e pc hpc hfr
    rw [render_lazy_of_ne defaultPolicy resolve e pc hpc hfr]
    exact sprintf_default _ _ _ _
  refine ⟨hone, fun pcs msg h => ?_⟩
  induction pcs with
  | nil => exact render_base _ _ _
  | cons pc pcs ih =>
    show render defaultPolicy resolve
      (Err.lazy (wrapChain pcs (Err.base msg)) pc) = _
    rw [hone _ pc (h pc (by simp)).1 (h pc (by simp)).2,
      ih (fun q hq => h q (by simp [hq]))]
    rfl

/-- Claim C3: `shorten` satisfies the specified case analysis: negative
segment counts return the string unchanged, zero returns the empty string,
one returns the part after the last separator (the whole string when none),
counts above one keep the last `segments` separator-preserving pieces and
saturate to the whole string when fewer pieces exist, and a string without a
separator is unchanged for all positive counts. -/
theorem shorten_case_analysis_spec (p : List Char) (s : Int) :
    (s < 0 → shorten p s = p) ∧
    (shorten p 0 = []) ∧
    ('/' ∈ p → ∃ pre, p = pre ++ '/' :: shorten p 1 ∧ '/' ∉ shorten p 1) ∧
    ('/' ∉ p → 1 ≤ s → shorten p s = p) ∧
    (1 < s → shorten p s =
      ((splitAfter '/' p).drop
        (((splitAfter '/' p).length : Int) - s).toNat).flatten) ∧
    (1 ≤ s → ((splitAfter '/' p).length : Int) ≤ s → shorten p s = p) :=
  ⟨fun h => shorten_neg h, shorten_zero p,
    fun h => shorten_one_of_mem h,
    fun h hs => shorten_of_not_mem h hs,
    fun h => shorten_gt_one h,
    fun h1 h2 => shorten_saturate h1 h2⟩

/-- Claim C4: a wrapped error whose location handle is empty (pc 0, no frame
captured) renders exactly as its cause does, with nothing added. -/
theorem render_empty_location_spec (pol : Policy) (resolve : Nat → Frame)
    (e : Err) :
    render pol resolve (Err.lazy e 0) = render pol resolve e :=
  render_lazy_zero pol resolve e

/-- Claim C5: the wrapping constructor `Error` panics on a nil cause and never
returns a normal value there, and returns the wrap of every non-nil cause
normally. -/
theorem error_ctor_nil_panic_spec :
    (∀ pc : Nat, ErrorCtor none pc = Except.error "err is nil") ∧
    (∀ (e : Err) (pc : Nat), ErrorCtor (some e) pc = Except.ok (Err.lazy e pc)) :=
  ⟨fun _ => rfl, fun _ _ => rfl⟩

/-- Claim C6: `Join` discards nil entries and returns nil when none remain;
with at least one non-nil input it returns a wrap whose one-step unwrap is a
single error, and for a single input `e` that single error renders exactly
as `e` does. -/
theorem join_spec :
    (∀ (errs : List (Option Err)) (pc : Nat),
      errs.filterMap id = [] → Join errs pc = none) ∧
    (∀ (errs : List (Option Err)) (pc : Nat),
      errs.filterMap id ≠ [] →
      ∃ e : Err, Join errs pc = some (Err.lazy e pc) ∧
        unwrapOnce (Err.lazy e pc) = some e) ∧
    (∀ (e : Err) (pc : Nat),
      Join [some e] pc = some (Err.lazy (Err.joined [e]) pc) ∧
      unwrapOnce (Err.lazy (Err.joined [e]) pc) = some (Err.joined [e]) ∧
      ∀ (pol : Policy) (resolve : Nat → Frame),
        render pol resolve (Err.joined [e]) = render pol resolve e) := by
  refine ⟨?_, ?_, ?_⟩
  · intro errs pc h
    simp [Join, errorsJoin, h]
  · intro errs pc h
    refine ⟨Err.joined (errs.filterMap id), ?_, rfl⟩
    simp [Join, errorsJoin, List.isEmpty_iff, h]
  · intro e pc
    exact ⟨rfl, rfl, fun pol resolve => render_joined_singleton pol resolve e⟩

/-- Claim C7: rendering is deterministic given a fixed formatting policy: two
invocations with the same policy and the same wrapped error value produce
identical strings. -/
theorem render_deterministic_spec (p q : Policy) (resolve : Nat → Frame)
    (e : Err) (h : p = q) : render p resolve e = render q resolve e := by
  rw [h]

/-- Claim C8, counterexample: a wrapped error value whose location handle is
empty renders identically before and after a change of `FileSegments`, so
not *every* already-created wrapped error value renders differently after a
policy change. -/
theorem render_policy_change_cex :
    defaultPolicy.FileSegments ≠ (⟨-1, 1, "%s:%d (%s): %s"⟩ : Policy).FileSegments ∧
    render defaultPolicy sampleResolve (Err.lazy (Err.base "x") 0) =
      render ⟨-1, 1, "%s:%d (%s): %s"⟩ sampleResolve
        (Err.lazy (Err.base "x") 0) := by
  refine ⟨by decide, ?_⟩
  rw [render_lazy_zero, render_lazy_zero, render_base, render_base]

/-- Claim C8, amended: rendering consults the formatting policy on every
invocation and never caches: a wrapped error with a captured, non-empty
frame always renders as the current policy's template instantiated with the
current knobs, and changing `FileSegments`, `FunctionSegments`, or the
template changes the rendering of an already-created value whenever the
change is observable on its frame (values with empty location handles render
as their cause under every policy). -/
theorem render_consults_policy_spec :
    (∀ (pol : Policy) (resolve : Nat → Frame) (e : Err) (pc : Nat), pc ≠ 0 →
      ¬((resolve pc).file = "" ∧ (resolve pc).function = "") →
      render pol resolve (Err.lazy e pc) =
        sprintf pol.Format.data
          [FmtArg.str (shortenS (resolve pc).file pol.FileSegments),
           FmtArg.num (resolve pc).line,
           FmtArg.str (shortenS (resolve pc).function pol.FunctionSegments),
           FmtArg.str (render pol resolve e)]) ∧
    (render defaultPolicy sampleResolve (Err.lazy (Err.base "x") 7) =
        "c.go:42 (mod.Fn): x" ∧
      render ⟨-1, 1, "%s:%d (%s): %s"⟩ sampleResolve
        (Err.lazy (Err.base "x") 7) = "a/b/c.go:42 (mod.Fn): x" ∧
      render ⟨1, 2, "%s:%d (%s): %s"⟩ sampleResolve
        (Err.lazy (Err.base "x") 7) = "c.go:42 (pkg/mod.Fn): x" ∧
      render ⟨1, 1, "[%s:%d] (%s) %s"⟩ sampleResolve
        (Err.lazy (Err.base "x") 7) = "[c.go:42] (mod.Fn) x" ∧
      ("c.go:42 (mod.Fn): x" : String) ≠ "a/b/c.go:42 (mod.Fn): x" ∧
      ("c.go:42 (mod.Fn): x" : String) ≠ "c.go:42 (pkg/mod.Fn): x" ∧
      ("c.go:42 (mod.Fn): x" : String) ≠ "[c.go:42] (mod.Fn) x") := by
  refine ⟨fun pol resolve e pc hpc hfr =>
    render_lazy_of_ne pol resolve e pc hpc hfr, ?_, ?_, ?_, ?_, ?_, ?_, ?_⟩
  · simp only [render, loc, sampleResolve]
    decide
  · simp only [render, loc, sampleResolve]
    decide
  · simp only [render, loc, sampleResolve]
    decide
  · simp only [render, loc, sampleResolve]
    decide
  · decide
  · decide
  · decide

/-- Claim C9: the capture routine `pc` skips exactly its own two frames (`runtime.Callers` and
`pc`) plus the public constructor's frame, so the captured location is the
application frame that invoked the constructor; and all four public
constructors call `pc` directly from their own bodies, hence sit at the same
stack depth relative to their callers. -/
theorem pc_capture_depth_spec (callersFrame pcFrame selfFrame : Nat)
    (callerStack : List Nat) (s fm : String) (e : Err)
    (errs : List (Option Err)) :
    pcCapture callersFrame pcFrame (selfFrame :: callerStack) =
      callerStack.headD 0 ∧
    NewStk s callersFrame pcFrame selfFrame callerStack =
      Err.lazy (Err.base s) (callerStack.headD 0) ∧
    ErrorStk e callersFrame pcFrame selfFrame callerStack =
      Err.lazy e (callerStack.headD 0) ∧
    ErrorfStk fm callersFrame pcFrame selfFrame callerStack =
      Err.lazy (Err.base fm) (callerStack.headD 0) ∧
    JoinStk errs callersFrame pcFrame selfFrame callerStack =
      Join errs (callerStack.headD 0) :=
  ⟨rfl, rfl, rfl, rfl, rfl⟩

/-- Claim C10, counterexample: `shorten` can return the empty string for a
non-zero segment count, so "empty exactly when `segments == 0`" fails: for
the path `"a/"` and one segment the part after the last separator is empty. -/
theorem shorten_empty_cex : shorten "a/".data 1 = [] ∧ ¬((1 : Int) = 0) := by
  constructor
  · decide
  · decide

/-- Claim C10, amended: `shorten` is total, returns the empty string when
`segments == 0` (that case always yields empty, though other inputs may also
yield empty), always returns a suffix of its input, hence never produces a
character not present in its input, and returns the input unchanged for
every negative segment count. -/
theorem shorten_suffix_total_spec (p : List Char) (s : Int) :
    (s = 0 → shorten p s = []) ∧
    shorten p s <:+ p ∧
    (s < 0 → shorten p s = p) ∧
    (∀ c : Char, c ∈ shorten p s → c ∈ p) :=
  ⟨fun h => h ▸ shorten_zero p, shorten_isSuffix p s,
    fun h => shorten_neg h,
    fun _ hc => (shorten_isSuffix p s).subset hc⟩

/-! ## Witnesses -/

/-- Witness for C2 at a concrete chain of one wrap. -/
theorem render_default_template_spec_witness :
    render defaultPolicy sampleResolve
      (wrapChain [7] (Err.base "err")) =
      ([7].map fun pc => defaultLocPart (sampleResolve pc)).foldr
        (fun a b => a ++ b) "err" :=
  (render_default_template_spec sampleResolve).2 [7] "err"
    (by intro pc hpc; simp at hpc; subst hpc; refine ⟨by decide, by decide⟩)

/-- Witness for C3 at a concrete path and segment count. -/
theorem shorten_case_analysis_spec_witness :
    shorten "a/b/c.go".data 2 =
      ((splitAfter '/' "a/b/c.go".data).drop
        (((splitAfter '/' "a/b/c.go".data).length : Int) - 2).toNat).flatten :=
  (shorten_case_analysis_spec "a/b/c.go".data 2).2.2.2.2.1 (by decide)

/-- Witness for C6 at a concrete argument list with a nil entry. -/
theorem join_spec_witness :
    ∃ e : Err, Join [some (Err.base "a"), none] 5 = some (Err.lazy e 5) ∧
      unwrapOnce (Err.lazy e 5) = some e :=
  join_spec.2.1 [some (Err.base "a"), none] 5 (by simp)

/-- Witness for C7 at a concrete value and policy. -/
theorem render_deterministic_spec_witness :
    render defaultPolicy sampleResolve (Err.lazy (Err.base "x") 7) =
      render defaultPolicy sampleResolve (Err.lazy (Err.base "x") 7) :=
  render_deterministic_spec defaultPolicy defaultPolicy sampleResolve
    (Err.lazy (Err.base "x") 7) rfl

/-- Witness for the amended C8 at a concrete frame and policy. -/
theorem render_consults_policy_spec_witness :
    render defaultPolicy sampleResolve (Err.lazy (Err.base "m") 7) =
      sprintf defaultPolicy.Format.data
        [FmtArg.str (shortenS (sampleResolve 7).file defaultPolicy.FileSegments),
         FmtArg.num (sampleResolve 7).line,
         FmtArg.str (shortenS (sampleResolve 7).function
           defaultPolicy.FunctionSegments),
         FmtArg.str (render defaultPolicy sampleResolve (Err.base "m"))] :=
  render_consults_policy_spec.1 defaultPolicy sampleResolve (Err.base "m") 7
    (by decide) (by decide)

/-- Witness for the amended C10 at a concrete path and zero segments. -/
theorem shorten_suffix_total_spec_witness : shorten "a/b".data 0 = [] :=
  (shorten_suffix_total_spec "a/b".data 0).1 rfl

end Lazyerrors
